import Mathlib

/-!
Shallow embedding of the `records` module: a library that turns a
function-like declaration into an immutable, structurally comparable
record type.  Definitions mirror `src/records.py`; theorems check the
specification's claims against them.
-/

set_option autoImplicit false

namespace Records

/-- The kind tag of one declared parameter (`inspect.Parameter.kind`). -/
inductive ParamKind where
  | posOnly
  | posOrKw
  | varPos
  | kwOnly
  | varKw
deriving DecidableEq, Repr

/-- A Python value, as far as the record machinery observes it:
numbers, strings, and the tuple/dict containers used for the variadic
fields.  Floats are kept as their decimal display parts, which is all
the record code ever consumes of them. -/
inductive Value where
  | vInt (n : Int)
  | vFloat (whole : Int) (frac : String)
  | vStr (s : String)
  | vTuple (items : List Value)
  | vDict (items : List (String × Value))

/-- A type annotation: either deferred text, the `None` object, a named
resolved type (`int`, `float`, ...), or one of the composite shapes the
module builds or inspects (`tuple[T]`, `dict[str, T]`,
`typing.Unpack[SomeTypedDict]`). -/
inductive Ann where
  | noneA
  | text (s : String)
  | named (s : String)
  | tupleOf (a : Ann)
  | dictStrTo (a : Ann)
  | unpackTD (a : Ann)
deriving DecidableEq, Repr

/-- One parameter of the declaration (`inspect.Parameter`). -/
structure Parameter where
  name : String
  kind : ParamKind
  default : Option Value := none
  anno : Option Ann := none

/-- The declaration handed to `record`: `func.__name__`, qualified name,
module, docstring, the ordered parameter list of its signature, and the
return annotation (`none` models `inspect.Signature.empty`). -/
structure FuncDecl where
  name : String
  qualname : String := ""
  module : String := ""
  doc : Option String := none
  params : List Parameter := []
  retAnn : Option Ann := none

/-- `str.startswith`, on the character sequence. -/
def pyStartsWith (s p : String) : Bool :=
  p.data.isPrefixOf s.data

/-- `str.endswith`, on the character sequence. -/
def pyEndsWith (s p : String) : Bool :=
  p.data.isSuffixOf s.data

/-- `str.removeprefix`: drop `p` from the front when it is a prefix. -/
def pyRemovePrefix (s p : String) : String :=
  if pyStartsWith s p then ⟨s.data.drop p.data.length⟩ else s

/-- `str.removesuffix`: drop `p` from the back when it is a suffix. -/
def pyRemoveSuffix (s p : String) : String :=
  if pyEndsWith s p then ⟨s.data.take (s.data.length - p.data.length)⟩ else s

/-- `_make_var_positional_annotation`: the `*args` annotation becomes a
`tuple[...]` shape, textually when the annotation is deferred text. -/
def makeVarPositionalAnn : Ann → Ann
  | .text s => .text ("tuple[" ++ s ++ "]")
  | a => .tupleOf a

/-- `_make_var_keyword_annotation`: the `**kwargs` annotation becomes a
`dict[str, ...]` shape, except that an `Unpack[...]` annotation
(textual or resolved) is unwrapped to its payload. -/
def makeVarKeywordAnn : Ann → Ann
  | .text s =>
    if pyStartsWith s "Unpack[" then
      .text (pyRemoveSuffix (pyRemovePrefix s "Unpack[") "]")
    else
      .text ("dict[str, " ++ s ++ "]")
  | .unpackTD a => a
  | a => .dictStrTo a

/-- Adjust one field's annotation according to its parameter kind, as the
loop in `record` does. -/
def adjustAnn (kind : ParamKind) (a : Ann) : Ann :=
  match kind with
  | .varPos => makeVarPositionalAnn a
  | .varKw => makeVarKeywordAnn a
  | _ => a

/-- The annotated parameters' name/annotation pairs in declared order. -/
def paramAnns (ps : List Parameter) : List (String × Ann) :=
  ps.filterMap fun p => p.anno.map fun a => (p.name, a)

/-- `func.__annotations__`: the annotated parameters in declaration
order, then the return annotation under the key `"return"` when one is
present. -/
def funcAnnotations (d : FuncDecl) : List (String × Ann) :=
  paramAnns d.params ++
    (match d.retAnn with
     | some a => [("return", a)]
     | none => [])

/-- `proposed_annotations`: a copy of `func.__annotations__` with the
`"return"` entry deleted when present. -/
def proposedAnnotations (d : FuncDecl) : List (String × Ann) :=
  (funcAnnotations d).eraseP (fun kv => kv.1 == "return")

/-- Attribute/dict lookup by key in an association list. -/
def lookupAttr {α : Type} (attrs : List (String × α)) (n : String) : Option α :=
  match attrs with
  | [] => none
  | (k, v) :: rest => if k = n then some v else lookupAttr rest n

/-- The `cls_annotations` loop of `record`: walk the parameters in
declared order, skip the unannotated ones, and adjust the variadic
annotations. -/
def clsAnnotations (d : FuncDecl) : List (String × Ann) :=
  d.params.filterMap fun p =>
    match lookupAttr (proposedAnnotations d) p.name with
    | none => none
    | some a => some (p.name, adjustAnn p.kind a)

/-- `dict | {"return": None}` for the initializer's annotations: update
the `"return"` entry in place when present, append it otherwise. -/
def withReturnNone (xs : List (String × Ann)) : List (String × Ann) :=
  if xs.any (fun kv => kv.1 == "return") then
    xs.map fun kv => if kv.1 = "return" then (kv.1, Ann.noneA) else kv
  else
    xs ++ [("return", Ann.noneA)]

/-- The `__slots__` tuple written into the synthesized class body: the
single-parameter declaration gets its own one-element-tuple branch. -/
def slotsOf (params : List Parameter) : List String :=
  if h : params.length = 1 then
    [(params.get ⟨0, by omega⟩).name]
  else
    params.map fun p => p.name

/-- The `match_args` loop of `record`: collect field names until the
first variadic-positional, keyword-only, or variadic-keyword parameter. -/
def matchArgsOf : List Parameter → List String
  | [] => []
  | p :: ps =>
    match p.kind with
    | .varPos => []
    | .kwOnly => []
    | .varKw => []
    | _ => p.name :: matchArgsOf ps

/-- The generated record type: field storage, initializer signature,
annotation mappings, match pattern, and display metadata. -/
structure RecordType where
  name : String
  slots : List String
  initParams : List Parameter
  annotations : List (String × Ann)
  matchArgs : List String
  initAnnotations : List (String × Ann)
  qualname : String
  module : String
  doc : Option String

/-- Build the record type from a declaration that passed the return
annotation gate.  `initParams` drops the parameter annotations the way
the synthesized `__init__` signature does; the original defaults are
kept because `record` restores them through `__defaults__` and
`__kwdefaults__`. -/
def mkRecordType (d : FuncDecl) : RecordType where
  name := d.name
  slots := slotsOf d.params
  initParams := d.params.map fun p => { p with anno := none }
  annotations := clsAnnotations d
  matchArgs := matchArgsOf d.params
  initAnnotations := withReturnNone (funcAnnotations d)
  qualname := d.qualname
  module := d.module
  doc := d.doc

/-- `record`: reject any return annotation other than `None` or absent,
then forge the type. -/
def record (d : FuncDecl) : Except String RecordType :=
  match d.retAnn with
  | none => .ok (mkRecordType d)
  | some .noneA => .ok (mkRecordType d)
  | some _ => .error "return type annotation can only be \x27None\x27 or unset"

/-- The outcome of `Record.__eq__`: Python either answers the
comparison or signals `NotImplemented`. -/
inductive EqResult where
  | isTrue
  | isFalse
  | notImplemented
deriving DecidableEq, Repr

/-- `frozenset` equality of two name lists: same membership. -/
def listSetEq (xs ys : List String) : Bool :=
  xs.all (fun x => ys.contains x) && ys.all (fun y => xs.contains y)

/-- The attribute loop of `Record.__eq__`: for each of `self`'s slot
names, `NotImplemented` when `other` lacks the attribute, `False` at the
first unequal value, `True` once every field matched.  The `none` result
models the `AttributeError` Python would raise if `self` itself lacked a
slot value (impossible for a constructed instance). -/
def eqLoop {α : Type} [DecidableEq α] (aAttrs bAttrs : List (String × α)) :
    List String → Option EqResult
  | [] => some .isTrue
  | attr :: rest =>
    match lookupAttr bAttrs attr with
    | none => some .notImplemented
    | some bv =>
      match lookupAttr aAttrs attr with
      | none => none
      | some av => if av ≠ bv then some .isFalse else eqLoop aAttrs bAttrs rest

/-- `Record.__eq__`.  `bSlots = none` models an `other` whose type has
no `__slots__` at all: the fallback `[object()]` sentinel can never
equal a set of strings, so the comparison is `NotImplemented`. -/
def recordEq {α : Type} [DecidableEq α] (aSlots : List String)
    (aAttrs : List (String × α)) (bSlots : Option (List String))
    (bAttrs : List (String × α)) : Option EqResult :=
  match bSlots with
  | none => some .notImplemented
  | some bs =>
    if listSetEq aSlots bs then eqLoop aAttrs bAttrs aSlots
    else some .notImplemented

/-- CPython's hash of a nonnegative integer: reduction modulo the
Mersenne prime `2^61 - 1`. -/
def pyHashNat (n : Nat) : Nat :=
  n % (2 ^ 61 - 1)

def xxPrime1 : Nat := 11400714785074694791
def xxPrime2 : Nat := 14029467366897019727
def xxPrime5 : Nat := 2870177450012600261

/-- 64-bit rotate left by 31 (`_PyHASH_XXROTATE`), on `x < 2^64`. -/
def xxRotate (x : Nat) : Nat :=
  (x * 2 ^ 31 + x / 2 ^ 33) % 2 ^ 64

/-- The accumulation loop of CPython's tuple hash (xxHash based). -/
def pyTupleHashAux : List Nat → Nat → Nat
  | [], acc => acc
  | lane :: rest, acc =>
    pyTupleHashAux rest ((xxRotate ((acc + lane * xxPrime2) % 2 ^ 64) * xxPrime1) % 2 ^ 64)

/-- CPython's `hash` of a tuple, given the hashes of its items. -/
def pyTupleHash (lanes : List Nat) : Nat :=
  let acc := (pyTupleHashAux lanes xxPrime5 + Nat.xor lanes.length (Nat.xor xxPrime5 3527539)) % 2 ^ 64
  if acc = 2 ^ 64 - 1 then 1546275796 else acc

/-- `Record.__hash__`: hash the tuple of the field values taken in slot
order; `vh` is the hash of one field value.  `none` models the
`AttributeError` of an unset slot. -/
def recordHash {α : Type} (vh : α → Nat) (slots : List String)
    (attrs : List (String × α)) : Option Nat :=
  (slots.mapM fun s => lookupAttr attrs s).map fun vs => pyTupleHash (vs.map vh)

/-- `Record.__setattr__`: unconditionally a `TypeError` naming the
concrete type; no updated attribute state is ever produced. -/
def recordSetattr {α : Type} (typeName : String) (attrs : List (String × α))
    (n : String) (v : α) : Except String (List (String × α)) :=
  .error (typeName ++ " object does not support attribute assignment")

/-- `Record.__delattr__`: unconditionally a `TypeError` naming the
concrete type; no updated attribute state is ever produced. -/
def recordDelattr {α : Type} (typeName : String) (attrs : List (String × α))
    (n : String) : Except String (List (String × α)) :=
  .error (typeName ++ " object does not support attribute deletion")

/-- `repr` of a Python string: quoted with single quotes, or double
quotes when the text contains a single quote and no double quote. -/
def pyStrRepr (s : String) : String :=
  if s.data.contains (Char.ofNat 39) && !s.data.contains (Char.ofNat 34) then
    "\x22" ++ s ++ "\x22"
  else
    "\x27" ++ s ++ "\x27"

mutual

/-- `repr` of a value, as CPython renders the shapes the record code
stores: ints, floats, strings, tuples (with the one-element comma) and
string-keyed dicts. -/
def pyRepr : Value → String
  | .vInt n => toString n
  | .vFloat w f => toString w ++ "." ++ f
  | .vStr s => pyStrRepr s
  | .vTuple [] => "()"
  | .vTuple [x] => "(" ++ pyRepr x ++ ",)"
  | .vTuple xs => "(" ++ String.intercalate ", " (pyReprList xs) ++ ")"
  | .vDict kvs => "\x7b" ++ String.intercalate ", " (pyReprDict kvs) ++ "\x7d"

def pyReprList : List Value → List String
  | [] => []
  | v :: vs => pyRepr v :: pyReprList vs

def pyReprDict : List (String × Value) → List String
  | [] => []
  | (k, v) :: kvs => (pyStrRepr k ++ ": " ++ pyRepr v) :: pyReprDict kvs

end

/-- How `Record.__repr__` renders one parameter of the stored
initializer signature, given the `repr` of the field's value. -/
def paramFragment (p : Parameter) (valRepr : String) : String :=
  match p.kind with
  | .posOnly => valRepr
  | .posOrKw => p.name ++ "=" ++ valRepr
  | .kwOnly => p.name ++ "=" ++ valRepr
  | .varPos => "*" ++ valRepr
  | .varKw => "**" ++ valRepr

/-- `Record.__repr__`: walk the stored initializer's parameters, look
each field up on the instance, and join the per-kind fragments.  `none`
models the `AttributeError` of a missing field. -/
def recordRepr (typeName : String) (ps : List Parameter)
    (attrs : List (String × Value)) : Option String :=
  (ps.mapM fun p => (lookupAttr attrs p.name).map fun v => paramFragment p (pyRepr v)).map
    fun frags => typeName ++ "(" ++ String.intercalate ", " frags ++ ")"

/-- An instance's `repr`: the type's name with its initializer
signature. -/
def instRepr (rt : RecordType) (attrs : List (String × Value)) : Option String :=
  recordRepr rt.name rt.initParams attrs

/-- Membership of a key among the keyword arguments of a call. -/
def kwHas (kw : List (String × Value)) (n : String) : Bool :=
  kw.any fun kv => kv.1 == n

/-- Remove the entry for a keyword argument, returning its value and
the remaining keywords. -/
def kwPop : List (String × Value) → String → Option (Value × List (String × Value))
  | [], _ => none
  | (k, v) :: rest, n =>
    if k = n then some (v, rest)
    else (kwPop rest n).map fun r => (r.1, (k, v) :: r.2)

/-- Python's binding of call arguments to a parameter list: positional
and keyword matching, defaults, `*args` collected as a tuple, `**kwargs`
collected as a dict; `none` on any arity or keyword error. -/
def bindCall : List Parameter → List Value → List (String × Value) → Option (List Value)
  | [], [], [] => some []
  | [], _ :: _, _ => none
  | [], [], _ :: _ => none
  | p :: ps, pos, kw =>
    match p.kind with
    | .posOnly =>
      match pos with
      | v :: rest => (bindCall ps rest kw).map fun vs => v :: vs
      | [] =>
        match p.default with
        | some dv => (bindCall ps [] kw).map fun vs => dv :: vs
        | none => none
    | .posOrKw =>
      match pos with
      | v :: rest =>
        if kwHas kw p.name then none
        else (bindCall ps rest kw).map fun vs => v :: vs
      | [] =>
        match kwPop kw p.name with
        | some (v, kw2) => (bindCall ps [] kw2).map fun vs => v :: vs
        | none =>
          match p.default with
          | some dv => (bindCall ps [] kw).map fun vs => dv :: vs
          | none => none
    | .varPos => (bindCall ps [] kw).map fun vs => Value.vTuple pos :: vs
    | .kwOnly =>
      match kwPop kw p.name with
      | some (v, kw2) => (bindCall ps pos kw2).map fun vs => v :: vs
      | none =>
        match p.default with
        | some dv => (bindCall ps pos kw).map fun vs => dv :: vs
        | none => none
    | .varKw =>
      (bindCall ps pos []).map fun vs => Value.vDict kw :: vs

/-- Calling the generated type: bind the call to the initializer's
parameters, then let the synthesized `__init__` body store each bound
value under its parameter's name via `object.__setattr__`. -/
def construct (rt : RecordType) (pos : List Value) (kw : List (String × Value)) :
    Option (List (String × Value)) :=
  (bindCall rt.initParams pos kw).map fun vals => rt.slots.zip vals

/-- Well-formedness every real Python declaration has: parameter names
are distinct and never the reserved word `return`. -/
def ValidDecl (d : FuncDecl) : Prop :=
  (d.params.map fun p => p.name).Nodup ∧ ∀ p ∈ d.params, p.name ≠ "return"

instance (d : FuncDecl) : Decidable (ValidDecl d) := by
  unfold ValidDecl
  infer_instance

/-- The declaration of the tests' `NoParameters` example. -/
def declNoParams : FuncDecl :=
  { name := "NoParameters", qualname := "NoParameters", module := "test_records",
    doc := some "An example with no parameters." }

/-- The declaration of the tests' `SingleParameter` example. -/
def declSingle : FuncDecl :=
  { name := "SingleParameter",
    params := [{ name := "only_one", kind := .posOrKw, anno := some (.named "float") }] }

/-- The declaration `(pos, /, pos_kw, *args, kw, **kwargs)` with one
parameter of every kind, named `TypeName` as in the specification's
representation example. -/
def declAllParams : FuncDecl :=
  { name := "TypeName",
    params := [
      { name := "pos", kind := .posOnly, anno := some (.named "float") },
      { name := "pos_kw", kind := .posOrKw, anno := some (.named "int") },
      { name := "args", kind := .varPos, anno := some (.named "int") },
      { name := "kw", kind := .kwOnly, anno := some (.named "str") },
      { name := "kwargs", kind := .varKw, anno := some (.named "int") }] }

/-- A declaration with a disallowed `int` return annotation. -/
def declBadReturn : FuncDecl :=
  { name := "bad_return_annotation", retAnn := some (.named "int") }

theorem listSetEq_iff (xs ys : List String) :
    listSetEq xs ys = true ↔ xs.toFinset = ys.toFinset := by
  simp only [listSetEq, Bool.and_eq_true, List.all_eq_true, List.contains,
    List.elem_iff, Finset.ext_iff, List.mem_toFinset]
  constructor
  · rintro ⟨h1, h2⟩ a
    exact ⟨fun ha => h1 a ha, fun ha => h2 a ha⟩
  · intro h
    exact ⟨fun a ha => (h a).mp ha, fun a ha => (h a).mpr ha⟩

theorem eqLoop_isTrue_iff {α : Type} [DecidableEq α]
    (aAttrs bAttrs : List (String × α)) (l : List String) :
    eqLoop aAttrs bAttrs l = some .isTrue ↔
      ∀ s ∈ l, (lookupAttr aAttrs s).isSome ∧
        lookupAttr aAttrs s = lookupAttr bAttrs s := by
  induction l with
  | nil => simp [eqLoop]
  | cons attr rest ih =>
    rw [eqLoop]
    cases hb : lookupAttr bAttrs attr with
    | none =>
      rw [List.forall_mem_cons]
      constructor
      · intro h; simp at h
      · rintro ⟨⟨hs, he⟩, -⟩
        rw [he, hb] at hs
        simp at hs
    | some bv =>
      cases ha : lookupAttr aAttrs attr with
      | none =>
        rw [List.forall_mem_cons]
        constructor
        · intro h; simp at h
        · rintro ⟨⟨hs, -⟩, -⟩
          rw [ha] at hs
          simp at hs
      | some av =>
        dsimp only
        by_cases hne : av = bv
        · subst hne
          rw [List.forall_mem_cons, if_neg (by simp), ih]
          simp [ha, hb]
        · rw [List.forall_mem_cons, if_pos hne]
          constructor
          · intro h; simp at h
          · rintro ⟨⟨-, he⟩, -⟩
            rw [ha, hb] at he
            exact absurd (Option.some_inj.mp he) hne

theorem eqLoop_isFalse {α : Type} [DecidableEq α]
    (aAttrs bAttrs : List (String × α)) (l : List String)
    (hall : ∀ s ∈ l, (lookupAttr aAttrs s).isSome ∧ (lookupAttr bAttrs s).isSome)
    (hex : ∃ s ∈ l, lookupAttr aAttrs s ≠ lookupAttr bAttrs s) :
    eqLoop aAttrs bAttrs l = some .isFalse := by
  induction l with
  | nil => simp at hex
  | cons attr rest ih =>
    obtain ⟨⟨av, ha⟩, bv, hb⟩ := by
      simpa [Option.isSome_iff_exists] using hall attr (by simp)
    simp only [eqLoop, hb, ha]
    by_cases hne : av = bv
    · subst hne
      simp only [ne_eq, not_true_eq_false, if_false]
      refine ih (fun s hs => hall s (by simp [hs])) ?_
      obtain ⟨s, hs, hne2⟩ := hex
      rcases List.mem_cons.mp hs with rfl | hs2
      · rw [ha, hb] at hne2
        exact absurd rfl hne2
      · exact ⟨s, hs2, hne2⟩
    · simp [hne]

/-- C1: for two record instances, `__eq__` answers true iff the slot
name sets agree and every field value compares equal; differing slot
sets give `NotImplemented` (never a plain false), a field attribute
missing on the other operand gives `NotImplemented`, and matching sets
with some unequal value give false. -/
theorem record_eq_spec {α : Type} [DecidableEq α] (aSlots bSlots : List String)
    (aAttrs bAttrs : List (String × α))
    (ha : ∀ s ∈ aSlots, (lookupAttr aAttrs s).isSome)
    (hb : ∀ s ∈ bSlots, (lookupAttr bAttrs s).isSome) :
    (recordEq aSlots aAttrs (some bSlots) bAttrs = some .isTrue ↔
      (aSlots.toFinset = bSlots.toFinset ∧
        ∀ s ∈ aSlots, lookupAttr aAttrs s = lookupAttr bAttrs s))
    ∧ (aSlots.toFinset ≠ bSlots.toFinset →
        recordEq aSlots aAttrs (some bSlots) bAttrs = some .notImplemented)
    ∧ ((∃ s ∈ aSlots, lookupAttr bAttrs s = none) →
        recordEq aSlots aAttrs (some bSlots) bAttrs = some .notImplemented)
    ∧ (aSlots.toFinset = bSlots.toFinset →
        (∃ s ∈ aSlots, lookupAttr aAttrs s ≠ lookupAttr bAttrs s) →
        recordEq aSlots aAttrs (some bSlots) bAttrs = some .isFalse) := by
  refine ⟨?_, ?_, ?_, ?_⟩
  · constructor
    · intro h
      by_cases hset : listSetEq aSlots bSlots = true
      · refine ⟨(listSetEq_iff _ _).mp hset, ?_⟩
        rw [recordEq, if_pos hset] at h
        exact fun s hs => ((eqLoop_isTrue_iff _ _ _).mp h s hs).2
      · rw [recordEq, if_neg hset] at h
        cases h
    · rintro ⟨hset, hvals⟩
      have hset' := (listSetEq_iff aSlots bSlots).mpr hset
      rw [recordEq, if_pos hset']
      exact (eqLoop_isTrue_iff _ _ _).mpr fun s hs => ⟨ha s hs, hvals s hs⟩
  · intro hset
    have hset' : ¬ listSetEq aSlots bSlots = true := fun h =>
      hset ((listSetEq_iff _ _).mp h)
    rw [recordEq, if_neg hset']
  · rintro ⟨s, hs, hnone⟩
    have hset : aSlots.toFinset ≠ bSlots.toFinset := by
      intro hEq
      have hmem : s ∈ bSlots := by
        have := Finset.ext_iff.mp hEq s
        simp only [List.mem_toFinset] at this
        exact this.mp hs
      have := hb s hmem
      rw [hnone] at this
      cases this
    have hset' : ¬ listSetEq aSlots bSlots = true := fun h =>
      hset ((listSetEq_iff _ _).mp h)
    rw [recordEq, if_neg hset']
  · intro hset hex
    have hset' := (listSetEq_iff aSlots bSlots).mpr hset
    rw [recordEq, if_pos hset']
    refine eqLoop_isFalse _ _ _ (fun s hs => ⟨ha s hs, ?_⟩) hex
    have hmem : s ∈ bSlots := by
      have := Finset.ext_iff.mp hset s
      simp only [List.mem_toFinset] at this
      exact this.mp hs
    exact hb s hmem

/-- C1 witness: two concrete two-field instances, equal on the nose. -/
theorem record_eq_spec_witness :
    recordEq ["x", "y"] [("x", (1 : Nat)), ("y", 2)] (some ["x", "y"])
      [("x", 1), ("y", 2)] = some .isTrue := by
  have h := record_eq_spec (α := Nat) ["x", "y"] ["x", "y"]
    [("x", 1), ("y", 2)] [("x", 1), ("y", 2)] (by decide) (by decide)
  exact h.1.mpr ⟨by decide, by decide⟩

/-- C7: `record` rejects a declaration exactly when its return
annotation is present and is not `None`; the error is the single
`TypeError` message, and every other declaration shape is accepted. -/
theorem return_annotation_gate (d : FuncDecl) :
    ((record d).isOk = false ↔ ∃ a, d.retAnn = some a ∧ a ≠ Ann.noneA)
    ∧ (∀ e, record d = .error e →
        e = "return type annotation can only be \x27None\x27 or unset")
    ∧ ((d.retAnn = none ∨ d.retAnn = some Ann.noneA) →
        record d = .ok (mkRecordType d)) := by
  refine ⟨?_, ?_, ?_⟩
  · cases hr : d.retAnn with
    | none => simp [record, hr, Except.isOk, Except.toBool]
    | some a =>
      cases a <;>
        simp [record, hr, Except.isOk, Except.toBool]
  · intro e he
    cases hr : d.retAnn with
    | none => rw [record, hr] at he; cases he
    | some a =>
      cases a <;> rw [record, hr] at he <;>
        first
          | exact (Except.error.inj he).symm
          | cases he
  · rintro (hr | hr) <;> rw [record, hr]

/-- C7 witness: the `int`-returning declaration is rejected and the
plain declaration is accepted. -/
theorem return_annotation_gate_witness :
    (record declBadReturn).isOk = false
    ∧ record declNoParams = .ok (mkRecordType declNoParams) := by
  constructor
  · exact (return_annotation_gate declBadReturn).1.mpr
      ⟨Ann.named "int", rfl, by decide⟩
  · exact (return_annotation_gate declNoParams).2.2 (Or.inl rfl)

theorem slotsOf_eq (params : List Parameter) :
    slotsOf params = params.map fun p => p.name := by
  unfold slotsOf
  split
  · rename_i h
    match params, h with
    | [p], _ => rfl
  · rfl

theorem recordOk_eq (d : FuncDecl) (rt : RecordType) (h : record d = .ok rt) :
    rt = mkRecordType d := by
  cases hr : d.retAnn with
  | none =>
    rw [record, hr] at h
    exact (Except.ok.inj h).symm
  | some a =>
    cases a <;> rw [record, hr] at h <;>
      first
        | exact (Except.ok.inj h).symm
        | cases h

/-- C2: the generated type's slots are exactly the declaration's
parameter names in declared order; a zero-parameter declaration has
empty slots and builds from zero arguments; a single-parameter
declaration has exactly one slot. -/
theorem record_slots_spec (d : FuncDecl) (rt : RecordType)
    (h : record d = .ok rt) :
    rt.slots = (d.params.map fun p => p.name)
    ∧ (d.params = [] → rt.slots = [] ∧ construct rt [] [] = some [])
    ∧ (d.params.length = 1 → rt.slots.length = 1) := by
  have hrt := recordOk_eq d rt h
  subst hrt
  refine ⟨slotsOf_eq d.params, ?_, ?_⟩
  · intro hp
    refine ⟨?_, ?_⟩
    · show slotsOf d.params = []
      rw [slotsOf_eq, hp]
      rfl
    · show (bindCall (d.params.map fun p => { p with anno := none }) [] []).map _ = _
      rw [hp]
      simp [bindCall, List.zip_nil_right]
  · intro hl
    show (slotsOf d.params).length = 1
    rw [slotsOf_eq, List.length_map, hl]

/-- C2 witness: the zero-parameter and single-parameter test examples. -/
theorem record_slots_spec_witness :
    (mkRecordType declNoParams).slots = []
    ∧ construct (mkRecordType declNoParams) [] [] = some []
    ∧ (mkRecordType declSingle).slots.length = 1 := by
  have h0 := record_slots_spec declNoParams (mkRecordType declNoParams) rfl
  have h1 := record_slots_spec declSingle (mkRecordType declSingle) rfl
  exact ⟨(h0.2.1 rfl).1, (h0.2.1 rfl).2, h1.2.2 rfl⟩

theorem matchArgsOf_eq (ps : List Parameter) :
    matchArgsOf ps =
      (ps.takeWhile fun p =>
        p.kind == ParamKind.posOnly || p.kind == ParamKind.posOrKw).map
        fun p => p.name := by
  induction ps with
  | nil => rfl
  | cons p ps ih =>
    cases hk : p.kind <;>
      (try simp [matchArgsOf, List.takeWhile, hk, ih]) <;> (try rfl)

/-- C6: the match pattern is the leading run of positional-only and
positional-or-keyword field names, truncated at the first variadic or
keyword-only parameter; on `(pos, pos_kw, *args, kw, **kwargs)` it is
`(pos, pos_kw)`. -/
theorem match_args_spec (d : FuncDecl) (rt : RecordType)
    (h : record d = .ok rt) :
    rt.matchArgs =
      (d.params.takeWhile fun p =>
        p.kind == ParamKind.posOnly || p.kind == ParamKind.posOrKw).map
        (fun p => p.name)
    ∧ (mkRecordType declAllParams).matchArgs = ["pos", "pos_kw"] := by
  have hrt := recordOk_eq d rt h
  subst hrt
  exact ⟨matchArgsOf_eq d.params, rfl⟩

/-- C6 witness: the all-kinds example through `record`. -/
theorem match_args_spec_witness :
    (mkRecordType declAllParams).matchArgs = ["pos", "pos_kw"] :=
  (match_args_spec declAllParams (mkRecordType declAllParams) rfl).2

/-- C3: setting or deleting any field of a constructed instance fails
with a `TypeError` naming the concrete type, and no modified attribute
state is ever produced (the instance is unchanged). -/
theorem immutability_spec {α : Type} (typeName : String)
    (attrs : List (String × α)) (n : String) (v : α) :
    recordSetattr typeName attrs n v =
      .error (typeName ++ " object does not support attribute assignment")
    ∧ recordDelattr typeName attrs n =
      .error (typeName ++ " object does not support attribute deletion")
    ∧ (∀ attrs2, recordSetattr typeName attrs n v ≠ .ok attrs2)
    ∧ (∀ attrs2, recordDelattr typeName attrs n ≠ .ok attrs2) := by
  refine ⟨rfl, rfl, ?_, ?_⟩ <;> intro attrs2 h <;> cases h

/-- C3 witness: one concrete rejected write. -/
theorem immutability_spec_witness :
    recordSetattr "Example" [("x", (1 : Nat))] "x" 2 =
      .error "Example object does not support attribute assignment" :=
  (immutability_spec "Example" [("x", (1 : Nat))] "x" 2).1

theorem mapM_lookup_congr {α : Type} (f g : String → Option α) (l : List String)
    (h : ∀ s ∈ l, f s = g s) : l.mapM f = l.mapM g := by
  induction l with
  | nil => rfl
  | cons s rest ih =>
    rw [List.mapM_cons, List.mapM_cons, h s (by simp),
      ih fun t ht => h t (by simp [ht])]

/-- C8: an instance's hash is CPython's tuple hash of the field-value
hashes taken in slot order; two same-type instances with equal field
values are equal and hash alike, and two same-type instances differing
in some field value compare not-equal. -/
theorem record_hash_spec {α : Type} [DecidableEq α] (vh : α → Nat)
    (slots : List String) (aAttrs bAttrs : List (String × α))
    (ha : ∀ s ∈ slots, (lookupAttr aAttrs s).isSome)
    (hb : ∀ s ∈ slots, (lookupAttr bAttrs s).isSome) :
    recordHash vh slots aAttrs =
      ((slots.mapM fun s => lookupAttr aAttrs s).map fun vs => pyTupleHash (vs.map vh))
    ∧ ((∀ s ∈ slots, lookupAttr aAttrs s = lookupAttr bAttrs s) →
        recordEq slots aAttrs (some slots) bAttrs = some .isTrue
        ∧ recordHash vh slots aAttrs = recordHash vh slots bAttrs)
    ∧ ((∃ s ∈ slots, lookupAttr aAttrs s ≠ lookupAttr bAttrs s) →
        recordEq slots aAttrs (some slots) bAttrs = some .isFalse) := by
  refine ⟨rfl, ?_, ?_⟩
  · intro hvals
    constructor
    · rw [recordEq, if_pos ((listSetEq_iff slots slots).mpr rfl)]
      exact (eqLoop_isTrue_iff _ _ _).mpr fun s hs => ⟨ha s hs, hvals s hs⟩
    · unfold recordHash
      rw [mapM_lookup_congr _ _ slots hvals]
  · intro hex
    rw [recordEq, if_pos ((listSetEq_iff slots slots).mpr rfl)]
    exact eqLoop_isFalse _ _ _ (fun s hs => ⟨ha s hs, hb s hs⟩) hex

/-- C8 witness: equal-valued instances are equal with the same hash;
changing one field value makes them not-equal. -/
theorem record_hash_spec_witness :
    (recordEq ["x", "y"] [("x", (1 : Nat)), ("y", 2)] (some ["x", "y"])
        [("x", 1), ("y", 2)] = some .isTrue
      ∧ recordHash pyHashNat ["x", "y"] [("x", (1 : Nat)), ("y", 2)] =
          recordHash pyHashNat ["x", "y"] [("x", 1), ("y", 2)])
    ∧ recordEq ["x", "y"] [("x", (1 : Nat)), ("y", 2)] (some ["x", "y"])
        [("x", 1), ("y", 3)] = some .isFalse := by
  constructor
  · exact (record_hash_spec pyHashNat ["x", "y"] [("x", 1), ("y", 2)]
      [("x", 1), ("y", 2)] (by decide) (by decide)).2.1 (by decide)
  · exact (record_hash_spec pyHashNat ["x", "y"] [("x", 1), ("y", 2)]
      [("x", 1), ("y", 3)] (by decide) (by decide)).2.2 ⟨"y", by decide, by decide⟩

/-- C10: instances of two record types declaring the fields x, y in
opposite orders, holding pairwise-equal values, compare equal while
their hashes differ, because equality works on the field-name set and
the hash combines values in each type's own slot order. -/
theorem eq_hash_order_mismatch :
    recordEq ["x", "y"] [("x", (1 : Nat)), ("y", 2)] (some ["y", "x"])
      [("y", 2), ("x", 1)] = some .isTrue
    ∧ recordHash pyHashNat ["x", "y"] [("x", (1 : Nat)), ("y", 2)] ≠
        recordHash pyHashNat ["y", "x"] [("y", 2), ("x", 1)] := by
  constructor
  · decide
  · decide

theorem isPrefixOf_append_self (l1 l2 : List Char) :
    l1.isPrefixOf (l1 ++ l2) = true := by
  induction l1 with
  | nil => simp [List.isPrefixOf]
  | cons c cs ih => simp [List.isPrefixOf, ih]

theorem isSuffixOf_append_self (l1 l2 : List Char) :
    l2.isSuffixOf (l1 ++ l2) = true := by
  simp [List.isSuffixOf, List.reverse_append, isPrefixOf_append_self]

/-- Unwrapping a textual `Unpack[...]` annotation recovers the payload
text. -/
theorem makeVarKeyword_text_unpack (s : String) :
    makeVarKeywordAnn (.text ("Unpack[" ++ s ++ "]")) = .text s := by
  have hdata : ("Unpack[" ++ s ++ "]").data =
      "Unpack[".data ++ (s.data ++ "]".data) := by
    rw [String.data_append, String.data_append, List.append_assoc]
  have hpre : pyStartsWith ("Unpack[" ++ s ++ "]") "Unpack[" = true := by
    rw [pyStartsWith, hdata]
    exact isPrefixOf_append_self _ _
  rw [makeVarKeywordAnn, if_pos hpre]
  rw [pyRemovePrefix, if_pos hpre]
  have hdrop : (("Unpack[" ++ s ++ "]").data.drop "Unpack[".data.length) =
      s.data ++ "]".data := by
    rw [hdata, List.drop_left]
  rw [hdrop]
  have hsuf : pyEndsWith (⟨s.data ++ "]".data⟩ : String) "]" = true := by
    rw [pyEndsWith]
    exact isSuffixOf_append_self _ _
  rw [pyRemoveSuffix, if_pos hsuf]
  have hlen : (s.data ++ "]".data).length - "]".data.length = s.data.length := by
    simp
  have htake : (s.data ++ "]".data).take s.data.length = s.data :=
    List.take_left _ _
  rw [hlen, htake]

theorem lookupAttr_eq_none {α : Type} (xs : List (String × α)) (n : String)
    (h : ∀ kv ∈ xs, kv.1 ≠ n) : lookupAttr xs n = none := by
  induction xs with
  | nil => rfl
  | cons kv rest ih =>
    obtain ⟨k, v⟩ := kv
    rw [lookupAttr, if_neg (h (k, v) (by simp))]
    exact ih fun kv2 h2 => h kv2 (by simp [h2])

theorem mem_paramAnns_name (ps : List Parameter) (kv : String × Ann)
    (h : kv ∈ paramAnns ps) : kv.1 ∈ ps.map fun p => p.name := by
  unfold paramAnns at h
  obtain ⟨p, hp, he⟩ := List.mem_filterMap.mp h
  cases ha : p.anno with
  | none => rw [ha] at he; cases he
  | some a =>
    rw [ha] at he
    cases he
    exact List.mem_map.mpr ⟨p, hp, rfl⟩

theorem lookupAttr_paramAnns {ps : List Parameter}
    (hnd : (ps.map fun p => p.name).Nodup) {p : Parameter} (hp : p ∈ ps) :
    lookupAttr (paramAnns ps) p.name = p.anno := by
  induction ps with
  | nil => cases hp
  | cons q rest ih =>
    have hnd2 : (rest.map fun p => p.name).Nodup := (List.nodup_cons.mp hnd).2
    have hqn : q.name ∉ rest.map fun p => p.name := (List.nodup_cons.mp hnd).1
    rcases List.mem_cons.mp hp with rfl | hmem
    · cases hq : p.anno with
      | none =>
        simp only [paramAnns, List.filterMap_cons, hq, Option.map_none']
        exact lookupAttr_eq_none _ _ fun kv hkv he =>
          hqn (he ▸ mem_paramAnns_name rest kv hkv)
      | some a =>
        simp only [paramAnns, List.filterMap_cons, hq, Option.map_some']
        rw [lookupAttr, if_pos rfl]
    · have hpn : p.name ∈ rest.map fun p => p.name :=
        List.mem_map.mpr ⟨p, hmem, rfl⟩
      have hne : q.name ≠ p.name := fun he => hqn (he ▸ hpn)
      cases hq : q.anno with
      | none =>
        simp only [paramAnns, List.filterMap_cons, hq, Option.map_none']
        exact ih hnd2 hmem
      | some a =>
        simp only [paramAnns, List.filterMap_cons, hq, Option.map_some']
        rw [lookupAttr, if_neg hne]
        exact ih hnd2 hmem

theorem proposedAnnotations_eq (d : FuncDecl)
    (hret : ∀ p ∈ d.params, p.name ≠ "return") :
    proposedAnnotations d = paramAnns d.params := by
  unfold proposedAnnotations funcAnnotations
  rw [List.eraseP_append_right]
  · cases hr : d.retAnn with
    | none => simp [List.eraseP]
    | some a => simp [List.eraseP]
  · intro kv hkv
    obtain ⟨p, hp, he⟩ := List.mem_map.mp (mem_paramAnns_name d.params kv hkv)
    simp only [he ▸ hret p hp, Bool.not_eq_true]
    exact beq_eq_false_iff_ne.mpr (he ▸ hret p hp)

theorem clsAnnotations_eq (d : FuncDecl) (hd : ValidDecl d) :
    clsAnnotations d =
      d.params.filterMap fun p =>
        p.anno.map fun a => (p.name, adjustAnn p.kind a) := by
  unfold clsAnnotations
  apply List.filterMap_congr
  intro p hp
  rw [proposedAnnotations_eq d hd.2, lookupAttr_paramAnns hd.1 hp]
  cases p.anno <;> rfl

/-- C4: a deferred textual `*args` annotation is wrapped textually into
`tuple[...]`, a resolved one into the tuple-of shape; a `**kwargs`
annotation becomes `dict[str, ...]` textually or as the mapping shape,
except that an `Unpack[...]` annotation (textual or resolved) yields
the unpacked shape itself; the installed field annotations are exactly
these per-kind adjustments. -/
theorem variadic_annotation_spec (d : FuncDecl) (rt : RecordType)
    (hd : ValidDecl d) (h : record d = .ok rt) :
    (∀ s, makeVarPositionalAnn (.text s) = .text ("tuple[" ++ s ++ "]"))
    ∧ (∀ a : Ann, (∀ s, a ≠ .text s) → makeVarPositionalAnn a = .tupleOf a)
    ∧ (∀ s, pyStartsWith s "Unpack[" = false →
        makeVarKeywordAnn (.text s) = .text ("dict[str, " ++ s ++ "]"))
    ∧ (∀ s, makeVarKeywordAnn (.text ("Unpack[" ++ s ++ "]")) = .text s)
    ∧ (∀ a, makeVarKeywordAnn (.unpackTD a) = a)
    ∧ (∀ a : Ann, (∀ s, a ≠ .text s) → (∀ b, a ≠ .unpackTD b) →
        makeVarKeywordAnn a = .dictStrTo a)
    ∧ rt.annotations =
        (d.params.filterMap fun p =>
          p.anno.map fun a => (p.name, adjustAnn p.kind a)) := by
  refine ⟨fun s => rfl, ?_, ?_, makeVarKeyword_text_unpack, fun a => rfl, ?_, ?_⟩
  · intro a hne
    cases a with
    | text s => exact absurd rfl (hne s)
    | _ => rfl
  · intro s hs
    rw [makeVarKeywordAnn, if_neg (by rw [hs]; exact Bool.false_ne_true)]
  · intro a hnt hnu
    cases a with
    | text s => exact absurd rfl (hnt s)
    | unpackTD b => exact absurd rfl (hnu b)
    | _ => rfl
  · rw [recordOk_eq d rt h]
    exact clsAnnotations_eq d hd

/-- C4 witness: the all-kinds example's installed annotations, plus the
textual wrappings on concrete annotation texts. -/
theorem variadic_annotation_spec_witness :
    (mkRecordType declAllParams).annotations =
      [("pos", Ann.named "float"), ("pos_kw", Ann.named "int"),
       ("args", Ann.tupleOf (Ann.named "int")), ("kw", Ann.named "str"),
       ("kwargs", Ann.dictStrTo (Ann.named "int"))]
    ∧ makeVarPositionalAnn (.text "int") = .text "tuple[int]"
    ∧ makeVarKeywordAnn (.text "int") = .text "dict[str, int]"
    ∧ makeVarKeywordAnn (.text "Unpack[TypedDict]") = .text "TypedDict" := by
  have h := variadic_annotation_spec declAllParams (mkRecordType declAllParams)
    (by decide) rfl
  refine ⟨?_, (h.1 "int").trans (by decide), ?_, ?_⟩
  · rw [h.2.2.2.2.2.2]
    decide
  · exact (h.2.2.1 "int" (by decide)).trans (by decide)
  · have h2 := h.2.2.2.1 "TypedDict"
    have h3 : Ann.text ("Unpack[" ++ "TypedDict" ++ "]") = .text "Unpack[TypedDict]" := by
      decide
    rw [h3] at h2
    exact h2

theorem recordOk_retAnn (d : FuncDecl) (rt : RecordType)
    (h : record d = .ok rt) :
    d.retAnn = none ∨ d.retAnn = some Ann.noneA := by
  cases hr : d.retAnn with
  | none => exact Or.inl rfl
  | some a =>
    cases a <;> rw [record, hr] at h <;>
      first
        | exact Or.inr rfl
        | cases h

/-- C9 counterexample: the claim as stated is false: for the valid
single-parameter declaration, the annotation mapping installed on the
generated type carries no `return` entry fixed to the no-value marker
at all. -/
theorem annotations_return_counterexample :
    ¬ ∀ (d : FuncDecl) (rt : RecordType), ValidDecl d → record d = .ok rt →
        lookupAttr rt.annotations "return" = some Ann.noneA := by
  intro h
  exact absurd (h declSingle (mkRecordType declSingle) (by decide) rfl) (by decide)

/-- C9 amended: the annotation mapping installed on the generated type
holds the adjusted per-field annotations in declared order and no
`return` entry; it is the initializer's annotation mapping that carries
the declaration's raw annotations with `return` fixed to `None`. -/
theorem annotations_install_spec (d : FuncDecl) (rt : RecordType)
    (hd : ValidDecl d) (h : record d = .ok rt) :
    rt.annotations =
      (d.params.filterMap fun p =>
        p.anno.map fun a => (p.name, adjustAnn p.kind a))
    ∧ lookupAttr rt.annotations "return" = none
    ∧ rt.initAnnotations = paramAnns d.params ++ [("return", Ann.noneA)] := by
  have hrt := recordOk_eq d rt h
  have hcls := clsAnnotations_eq d hd
  have hno : ∀ kv ∈ paramAnns d.params, kv.1 ≠ "return" := by
    intro kv hkv
    obtain ⟨p, hp, he⟩ := List.mem_map.mp (mem_paramAnns_name d.params kv hkv)
    exact he ▸ hd.2 p hp
  subst hrt
  refine ⟨hcls, ?_, ?_⟩
  · show lookupAttr (clsAnnotations d) "return" = none
    rw [hcls]
    apply lookupAttr_eq_none
    intro kv hkv
    obtain ⟨p, hp, he⟩ := List.mem_filterMap.mp hkv
    cases ha : p.anno with
    | none => rw [ha] at he; cases he
    | some a =>
      rw [ha] at he
      cases he
      exact hd.2 p hp
  · show withReturnNone (funcAnnotations d) = _
    have hanyno : (paramAnns d.params).any (fun kv => kv.1 == "return") = false := by
      rw [List.any_eq_false]
      intro kv hkv
      simp only [Bool.not_eq_true]
      exact beq_eq_false_iff_ne.mpr (hno kv hkv)
    rcases recordOk_retAnn d (mkRecordType d) h with hr | hr
    · have hF : funcAnnotations d = paramAnns d.params := by
        rw [funcAnnotations, hr]
        simp
      rw [withReturnNone, hF, if_neg (by simp [hanyno])]
    · have hF : funcAnnotations d = paramAnns d.params ++ [("return", Ann.noneA)] := by
        rw [funcAnnotations, hr]
      rw [withReturnNone, hF, if_pos (by simp), List.map_append]
      have hmap : (paramAnns d.params).map
          (fun kv => if kv.1 = "return" then (kv.1, Ann.noneA) else kv) =
          (paramAnns d.params).map id := by
        apply List.map_congr_left
        intro kv hkv
        simp [hno kv hkv]
      rw [hmap, List.map_id]
      simp

/-- C9 witness for the amended claim: the single-parameter example has
its lone adjusted annotation installed, no class-level `return` entry,
and the initializer's annotations with `return` fixed to `None`. -/
theorem annotations_install_spec_witness :
    (mkRecordType declSingle).annotations = [("only_one", Ann.named "float")]
    ∧ lookupAttr (mkRecordType declSingle).annotations "return" = none
    ∧ (mkRecordType declSingle).initAnnotations =
        [("only_one", Ann.named "float"), ("return", Ann.noneA)] := by
  have h := annotations_install_spec declSingle (mkRecordType declSingle)
    (by decide) rfl
  exact ⟨(h.1).trans (by decide), h.2.1, (h.2.2).trans (by decide)⟩

theorem mapM_option_eq_map {α β : Type} [Inhabited β] (f : α → Option β)
    (l : List α) (h : ∀ a ∈ l, (f a).isSome) :
    l.mapM f = some (l.map fun a => (f a).getD default) := by
  induction l with
  | nil => rfl
  | cons a rest ih =>
    obtain ⟨b, hb⟩ := Option.isSome_iff_exists.mp (h a (by simp))
    rw [List.mapM_cons, hb, ih fun x hx => h x (by simp [hx])]
    simp [hb]

/-- C5: the representation is rebuilt from the stored initializer's
parameter list as `TypeName(...)`, with positional-only fields as bare
values, positional-or-keyword and keyword-only fields as `name=value`,
the variadic-positional field as `*value` and the variadic-keyword
field as `**value`; the all-kinds example called as
`(1.0, 2, 3, 4, kw="5", extra=6)` renders exactly as the spec shows. -/
theorem repr_spec (tn : String) (ps : List Parameter)
    (attrs : List (String × Value))
    (h : ∀ p ∈ ps, (lookupAttr attrs p.name).isSome) :
    recordRepr tn ps attrs = some (tn ++ "(" ++ String.intercalate ", "
      (ps.map fun p =>
        paramFragment p (pyRepr ((lookupAttr attrs p.name).getD (.vInt 0)))) ++ ")")
    ∧ (∀ p r, p.kind = ParamKind.posOnly → paramFragment p r = r)
    ∧ (∀ p r, p.kind = ParamKind.posOrKw → paramFragment p r = p.name ++ "=" ++ r)
    ∧ (∀ p r, p.kind = ParamKind.kwOnly → paramFragment p r = p.name ++ "=" ++ r)
    ∧ (∀ p r, p.kind = ParamKind.varPos → paramFragment p r = "*" ++ r)
    ∧ (∀ p r, p.kind = ParamKind.varKw → paramFragment p r = "**" ++ r)
    ∧ ((construct (mkRecordType declAllParams)
          [.vFloat 1 "0", .vInt 2, .vInt 3, .vInt 4]
          [("kw", .vStr "5"), ("extra", .vInt 6)]).bind
          (fun at2 => instRepr (mkRecordType declAllParams) at2) =
        some "TypeName(1.0, pos_kw=2, *(3, 4), kw=\x275\x27, **\x7b\x27extra\x27: 6\x7d)") := by
  refine ⟨?_, ?_, ?_, ?_, ?_, ?_, ?_⟩
  · unfold recordRepr
    have hsome : ∀ p ∈ ps,
        ((lookupAttr attrs p.name).map fun v => paramFragment p (pyRepr v)).isSome := by
      intro p hp
      have hx := h p hp
      cases hl : lookupAttr attrs p.name with
      | none => rw [hl] at hx; cases hx
      | some v => rfl
    rw [mapM_option_eq_map _ ps hsome]
    have hlist : (ps.map fun p =>
        ((lookupAttr attrs p.name).map fun v => paramFragment p (pyRepr v)).getD default)
        = ps.map fun p =>
            paramFragment p (pyRepr ((lookupAttr attrs p.name).getD (.vInt 0))) := by
      apply List.map_congr_left
      intro p hp
      have hx := h p hp
      cases hl : lookupAttr attrs p.name with
      | none => rw [hl] at hx; cases hx
      | some v => simp [hl]
    rw [Option.map_some', hlist]
  · intro p r hk; rw [paramFragment, hk]
  · intro p r hk; rw [paramFragment, hk]
  · intro p r hk; rw [paramFragment, hk]
  · intro p r hk; rw [paramFragment, hk]
  · intro p r hk; rw [paramFragment, hk]
  · decide

/-- C5 witness: the all-kinds instance's attribute list renders to the
specified string. -/
theorem repr_spec_witness :
    recordRepr "TypeName" (mkRecordType declAllParams).initParams
      [("pos", .vFloat 1 "0"), ("pos_kw", .vInt 2),
       ("args", .vTuple [.vInt 3, .vInt 4]), ("kw", .vStr "5"),
       ("kwargs", .vDict [("extra", .vInt 6)])] =
      some "TypeName(1.0, pos_kw=2, *(3, 4), kw=\x275\x27, **\x7b\x27extra\x27: 6\x7d)" := by
  have h := repr_spec "TypeName" (mkRecordType declAllParams).initParams
    [("pos", .vFloat 1 "0"), ("pos_kw", .vInt 2),
     ("args", .vTuple [.vInt 3, .vInt 4]), ("kw", .vStr "5"),
     ("kwargs", .vDict [("extra", .vInt 6)])] (by decide)
  rw [h.1]
  decide

end Records
